import Mathlib

/-
Verification of the accordion navigation and scroll-state engine of
npgsql-mon (src/main.rs, src/format.rs), as a shallow embedding in Lean.

Conventions of the embedding:
  * Rust `usize`/`u64` arithmetic that only ever decreases via
    `saturating_sub` is modelled by truncated `Nat` subtraction.
  * Rust `HashSet` values that are only tested for membership are
    modelled as Lean `List`s with decidable membership.
  * Rust `HashMap<usize, usize>` scroll maps are modelled as functions
    `Nat → Option Nat` (reads in the source use `unwrap_or(0)`).
  * The SQL pretty-printer (`sqlformat::format`, an external crate that
    the spec declares out of scope) is an opaque parameter
    `fmt : String → String`.
  * Rust `String` comparison (byte-wise lexicographic on UTF-8) agrees
    with Lean's `String` linear order (lexicographic on code points),
    since UTF-8 encoding preserves code-point order.
-/

/-- Log record, translated from `struct SqlLogMessage` in src/main.rs. -/
structure SqlLogMessage where
  statement : String
  duration : Nat
  timestamp : String
  endpoint : Option String
  http_method : Option String
  caller_namespace : Option String
  caller_class : Option String
  caller_method : Option String
  uid : Option String
deriving DecidableEq, Repr

/-- Group key, translated from `struct RequestGroup` in src/main.rs.
The `endpoint` field is the spec's display-label and the `http_method`
field is the spec's method-label. -/
structure RequestGroup where
  endpoint : String
  http_method : String
deriving DecidableEq, Repr

/-- Translated from `RequestGroup::from_message` in src/main.rs. -/
def RequestGroup.from_message (msg : SqlLogMessage) : RequestGroup :=
  match msg.http_method with
  | none =>
    let caller_info :=
      match msg.caller_method, msg.caller_class with
      | some method, some cls => method ++ " in " ++ cls
      | some method, none => method
      | none, some cls => "in " ++ cls
      | none, none => "N/A"
    { endpoint := caller_info, http_method := "CALL" }
  | some _ =>
    { endpoint := msg.endpoint.getD "N/A",
      http_method := msg.http_method.getD "UNKNOWN" }

/-! ### Scroll State Manager (spec §4.5)

Per-item scroll state: the pair stored in the `scroll_offsets` /
`scroll_cursors` maps of `run_tui` for one item.  The four key handlers
in scroll mode (src/main.rs, the `'j'`/`'k'`/Ctrl-d/Ctrl-u arms around
lines 489-761) mutate this pair; `T` is the recomputed
`total_lines` of the expanded statement and `H` is
`dynamic_max_expanded_height`. -/

structure ScrollSt where
  offset : Nat
  cursor : Nat
deriving DecidableEq, Repr

/-- The `'j'`/Down arm of scroll mode (src/main.rs lines 571-592):
move the cursor down one line if not at the end, bumping the offset by
one when the cursor leaves the bottom of the viewport. -/
def cursorDown (T H : Nat) (s : ScrollSt) : ScrollSt :=
  if s.cursor < T - 1 then
    { cursor := s.cursor + 1,
      offset := if s.cursor + 1 ≥ s.offset + H then s.offset + 1 else s.offset }
  else s

/-- The `'k'`/Up arm of scroll mode (src/main.rs lines 594-616):
move the cursor up one line if not at the top, pulling the offset up by
one when the cursor leaves the top of the viewport. -/
def cursorUp (s : ScrollSt) : ScrollSt :=
  if s.cursor > 0 then
    { cursor := s.cursor - 1,
      offset := if s.cursor - 1 < s.offset then s.offset - 1 else s.offset }
  else s

/-- The Ctrl-d arm of scroll mode (src/main.rs lines 617-731): move the
cursor down by half a page, clamped to the last line; if the cursor
leaves the viewport, move the offset down by the same step, clamped to
`T - H`. -/
def pageDown (T H : Nat) (s : ScrollSt) : ScrollSt :=
  { cursor := min (s.cursor + H / 2) (T - 1),
    offset := if min (s.cursor + H / 2) (T - 1) ≥ s.offset + H
              then min (s.offset + H / 2) (T - H)
              else s.offset }

/-- The Ctrl-u arm of scroll mode (src/main.rs lines 732-761): move the
cursor up by half a page (saturating), pulling the offset up by the same
step when the cursor leaves the top of the viewport. -/
def pageUp (H : Nat) (s : ScrollSt) : ScrollSt :=
  { cursor := s.cursor - H / 2,
    offset := if s.cursor - H / 2 < s.offset then s.offset - H / 2 else s.offset }

/-- The scroll invariant of spec §3 / §8: the cursor lies in the visible
window and the offset is within `[0, max 0 (T - H)]`. -/
def ScrollInv (T H : Nat) (s : ScrollSt) : Prop :=
  s.offset ≤ s.cursor ∧ s.cursor < s.offset + H ∧ s.offset ≤ max 0 (T - H)

/-! ### Grouping Engine (spec §4.3, `GroupedLogMessages::from_messages`) -/

/-- Rust `String::cmp`: lexicographic three-way comparison. -/
def strCmp (a b : String) : Ordering :=
  if a < b then .lt else if b < a then .gt else .eq

/-- Rust `Option::cmp` on the optional greatest timestamp:
`None` sorts below `Some`. -/
def cmpOptStr : Option String → Option String → Ordering
  | none, none => .eq
  | none, some _ => .lt
  | some _, none => .gt
  | some a, some b => strCmp a b

/-- Rust `iter().map(|msg| &msg.timestamp).max()`: greatest timestamp of
a bucket, `none` for an empty bucket (ties keep the later element, which
is value-irrelevant for strings). -/
def maxStep (acc : Option String) (m : SqlLogMessage) : Option String :=
  match acc with
  | none => some m.timestamp
  | some t => some (if t ≤ m.timestamp then m.timestamp else t)

def maxTimestamp (msgs : List SqlLogMessage) : Option String :=
  msgs.foldl maxStep none

/-- One `group_map.entry(group).or_insert_with(Vec::new).push(msg)` step:
append `m` to the bucket keyed `g`, creating the bucket if absent.  The
bucket list keeps first-insertion order; the source iterates a `HashMap`
in unspecified order, and the subsequent sort by a comparator that is
total on the (distinct) keys makes the result order-independent. -/
def addToBucket (acc : List (RequestGroup × List SqlLogMessage))
    (g : RequestGroup) (m : SqlLogMessage) :
    List (RequestGroup × List SqlLogMessage) :=
  match acc with
  | [] => [(g, [m])]
  | (g', ms) :: rest =>
    if g' = g then (g', ms ++ [m]) :: rest
    else (g', ms) :: addToBucket rest g m

/-- The grouping loop of `GroupedLogMessages::from_messages`. -/
def bucketize : List SqlLogMessage → List (RequestGroup × List SqlLogMessage) →
    List (RequestGroup × List SqlLogMessage)
  | [], acc => acc
  | m :: ms, acc => bucketize ms (addToBucket acc (RequestGroup.from_message m) m)

/-- The comparator passed to `groups.sort_by` in
`GroupedLogMessages::from_messages` (src/main.rs lines 89-116): pinned
groups first; within equal pin status, greatest member timestamp
descending; ties broken by endpoint then http_method ascending. -/
def cmpTail (a b : RequestGroup × List SqlLogMessage) : Ordering :=
  if cmpOptStr (maxTimestamp b.2) (maxTimestamp a.2) = .eq then
    (if strCmp a.1.endpoint b.1.endpoint = .eq then
      strCmp a.1.http_method b.1.http_method
    else strCmp a.1.endpoint b.1.endpoint)
  else cmpOptStr (maxTimestamp b.2) (maxTimestamp a.2)

def cmpGroups (pinned_groups : List RequestGroup)
    (a b : RequestGroup × List SqlLogMessage) : Ordering :=
  match decide (a.1 ∈ pinned_groups), decide (b.1 ∈ pinned_groups) with
  | true, false => .lt
  | false, true => .gt
  | _, _ => cmpTail a b

/-- Translated from `struct GroupedLogMessages` in src/main.rs. -/
structure GroupedLogMessages where
  groups : List (RequestGroup × List SqlLogMessage)
deriving DecidableEq, Repr

/-- Translated from `GroupedLogMessages::from_messages`: bucket the
messages by group key, then sort the buckets with the source comparator.
The stable `sort_by` over the hash-map iteration order is modelled by
`insertionSort` with the non-strict relation induced by the comparator. -/
def GroupedLogMessages.from_messages (messages : List SqlLogMessage)
    (pinned_groups : List RequestGroup) : GroupedLogMessages :=
  ⟨List.insertionSort (fun a b => cmpGroups pinned_groups a b ≠ .gt)
    (bucketize messages [])⟩

/-- Well-formedness of a bucket list: distinct keys, and every bucket is
non-empty and holds exactly messages of its own key. -/
def BucketsWF (acc : List (RequestGroup × List SqlLogMessage)) : Prop :=
  (acc.map Prod.fst).Nodup ∧
    ∀ p ∈ acc, p.2 ≠ [] ∧ ∀ x ∈ p.2, RequestGroup.from_message x = p.1

/-- The ordering demanded by claim C2 on any two buckets in output
order: pinned before unpinned; within equal pin status, greater maximum
member timestamp first; ties broken by display-label (the `endpoint`
field) ascending, then method-label (the `http_method` field)
ascending. -/
def specGroupBefore (pinned_groups : List RequestGroup)
    (a b : RequestGroup × List SqlLogMessage) : Prop :=
  (a.1 ∈ pinned_groups ∧ b.1 ∉ pinned_groups) ∨
    ((a.1 ∈ pinned_groups ↔ b.1 ∈ pinned_groups) ∧
      ((∃ ta tb, maxTimestamp a.2 = some ta ∧ maxTimestamp b.2 = some tb ∧
          tb < ta) ∨
        (maxTimestamp a.2 = maxTimestamp b.2 ∧
          (a.1.endpoint < b.1.endpoint ∨
            (a.1.endpoint = b.1.endpoint ∧
              a.1.http_method < b.1.http_method)))))

/-! ### Flattening / Navigation Index (spec §4.4) -/

/-- Translated from `enum FlatNavigationItem` in src/main.rs (messages
held by value rather than by reference). -/
inductive FlatNavigationItem where
  | GroupHeader : RequestGroup → FlatNavigationItem
  | Message : SqlLogMessage → FlatNavigationItem
deriving DecidableEq, Repr

/-- ASCII lowercasing of one character (the fragment of Rust
`to_lowercase` exercised by this code path). -/
def lowerChar (c : Char) : Char :=
  if 'A' ≤ c ∧ c ≤ 'Z' then Char.ofNat (c.toNat + 32) else c

def toLowerStr (s : String) : String := ⟨s.data.map lowerChar⟩

/-- Rust `str::contains(pat)` (substring search), over character lists
so that it is kernel-evaluable. -/
def containsAux (pat : List Char) : List Char → Bool
  | [] => pat.isEmpty
  | c :: cs => List.isPrefixOf pat (c :: cs) || containsAux pat cs

def strContains (s pat : String) : Bool := containsAux pat.data s.data

def strStartsWith (s p : String) : Bool := List.isPrefixOf p.data s.data

/-- The per-message filter predicate used inside
`create_flat_navigation_structure` (src/main.rs lines 1123-1148):
case-insensitive substring match of the filter text against
`http_method` (the literal "CALL" when absent), `endpoint`,
`caller_class` and `caller_method`. -/
def matchesFilter (filter_text : String) (msg : SqlLogMessage) : Bool :=
  let ft := toLowerStr filter_text
  let method_match :=
    match msg.http_method with
    | none => strContains (toLowerStr "CALL") ft
    | some method => strContains (toLowerStr method) ft
  let endpoint_match :=
    match msg.endpoint with
    | none => false
    | some endpoint => strContains (toLowerStr endpoint) ft
  let caller_class_match :=
    match msg.caller_class with
    | none => false
    | some cls => strContains (toLowerStr cls) ft
  let caller_method_match :=
    match msg.caller_method with
    | none => false
    | some method => strContains (toLowerStr method) ft
  method_match || endpoint_match || caller_class_match || caller_method_match

/-- Modelled from the words of claim C4 (spec §4.4): match against the
method-label and display-label of the record's GroupKey plus the caller
fields.  This is the spec-side predicate that claim C4 asserts the code
implements; it differs from `matchesFilter`, which tests the raw
`endpoint` field instead of the derived display-label. -/
def specMatchesFilter (filter_text : String) (msg : SqlLogMessage) : Bool :=
  let ft := toLowerStr filter_text
  let key := RequestGroup.from_message msg
  strContains (toLowerStr key.http_method) ft ||
    strContains (toLowerStr key.endpoint) ft ||
    (match msg.caller_class with
     | none => false
     | some cls => strContains (toLowerStr cls) ft) ||
    (match msg.caller_method with
     | none => false
     | some method => strContains (toLowerStr method) ft)

/-- The intra-group sort of `create_flat_navigation_structure`:
`sorted_messages.sort_by(|a, b| b.timestamp.cmp(&a.timestamp))`. -/
def sortMessagesDesc (msgs : List SqlLogMessage) : List SqlLogMessage :=
  List.insertionSort (fun a b => strCmp b.timestamp a.timestamp ≠ .gt) msgs

/-- The group loop of `create_flat_navigation_structure` (src/main.rs
lines 1118-1169). -/
def flattenGroups : List (RequestGroup × List SqlLogMessage) →
    List RequestGroup → String → List FlatNavigationItem
  | [], _, _ => []
  | (group, messages) :: rest, expanded_groups, filter_text =>
    let filtered_messages :=
      if filter_text = "" then messages
      else messages.filter (matchesFilter filter_text)
    if filtered_messages = [] then flattenGroups rest expanded_groups filter_text
    else
      FlatNavigationItem.GroupHeader group ::
        ((if group ∈ expanded_groups then
            (sortMessagesDesc filtered_messages).map FlatNavigationItem.Message
          else []) ++ flattenGroups rest expanded_groups filter_text)

/-- Translated from `create_flat_navigation_structure` (src/main.rs
lines 1111-1172). -/
def create_flat_navigation_structure (grouped_messages : GroupedLogMessages)
    (expanded_groups : List RequestGroup) (filter_text : String) :
    List FlatNavigationItem :=
  flattenGroups grouped_messages.groups expanded_groups filter_text

/-- Translated from `count_total_rendered_items` in src/main.rs. -/
def count_total_rendered_items (grouped_messages : GroupedLogMessages)
    (expanded_groups : List RequestGroup) (filter_text : String) : Nat :=
  (create_flat_navigation_structure grouped_messages expanded_groups
    filter_text).length

def isHeader : FlatNavigationItem → Bool
  | .GroupHeader _ => true
  | .Message _ => false

def isMember : FlatNavigationItem → Bool
  | .GroupHeader _ => false
  | .Message _ => true

/-- Claim C3's nesting property: every Member row's record belongs to
the group of the closest GroupHeader row above it, and no Member row
appears before the first header.  The first argument is the key of the
closest header seen so far. -/
def wellNested : Option RequestGroup → List FlatNavigationItem → Prop
  | _, [] => True
  | _, FlatNavigationItem.GroupHeader g :: rest => wellNested (some g) rest
  | none, FlatNavigationItem.Message _ :: _ => False
  | some g, FlatNavigationItem.Message m :: rest =>
    RequestGroup.from_message m = g ∧ wellNested (some g) rest

/-! ### Log Ingest Buffer (spec §4.1) and Selection Continuity (spec §4.6) -/

/-- Translated from the ingest step of `run_tui` (src/main.rs lines
218-233): push the record at the end, then drop the front element when
the length exceeds 1000. -/
def appendLog (log_lines : List SqlLogMessage) (msg : SqlLogMessage) :
    List SqlLogMessage :=
  let pushed := log_lines ++ [msg]
  if pushed.length > 1000 then pushed.tail else pushed

def appendAll (log_lines : List SqlLogMessage)
    (incoming : List SqlLogMessage) : List SqlLogMessage :=
  incoming.foldl appendLog log_lines

/-- The uid search loop of `run_tui` (src/main.rs lines 256-266): index
of the first Member row whose record carries the given uid. -/
def findUidIndex (uid : String) : List FlatNavigationItem → Option Nat
  | [] => none
  | item :: rest =>
    match item with
    | FlatNavigationItem.Message m =>
      if m.uid = some uid then some 0 else (findUidIndex uid rest).map (· + 1)
    | FlatNavigationItem.GroupHeader _ => (findUidIndex uid rest).map (· + 1)

/-- The uid-based selection restore of `run_tui` (src/main.rs lines
251-285): select `found_index + 1` (the `+1` accounts for the padding
row) when a Member row with the stored uid exists; otherwise the
selection is left at its previous value — the source has no fallback
assignment on this path. -/
def restoreSelection (flat_items : List FlatNavigationItem) (uid : String)
    (prev_selected : Nat) : Nat :=
  match findUidIndex uid flat_items with
  | some i => i + 1
  | none => prev_selected

/-! ### Entering scroll mode (the `'l'` key handler, src/main.rs lines 924-945) -/

/-- Models `HashMap::insert` on the scroll maps. -/
def insertMap (m : Nat → Option Nat) (k v : Nat) : Nat → Option Nat :=
  fun j => if j = k then some v else m j

/-- Translated from the `'l'` key arm of `run_tui`: when the selected
row is a Member row whose record uid is individually expanded, enter
scroll mode and reset both per-item scroll maps at the selected flat
index; otherwise change nothing. -/
def handleEnterScrollKey (flat_items : List FlatNavigationItem)
    (expanded_uids : List String) (selected : Option Nat)
    (scroll_mode : Bool) (scroll_offsets scroll_cursors : Nat → Option Nat) :
    Bool × (Nat → Option Nat) × (Nat → Option Nat) :=
  match selected with
  | some sel =>
    if sel > 0 then
      match flat_items.get? (sel - 1) with
      | some (FlatNavigationItem.Message msg) =>
        match msg.uid with
        | some uid =>
          if uid ∈ expanded_uids then
            (true, insertMap scroll_offsets (sel - 1) 0,
              insertMap scroll_cursors (sel - 1) 0)
          else (scroll_mode, scroll_offsets, scroll_cursors)
        | none => (scroll_mode, scroll_offsets, scroll_cursors)
      | _ => (scroll_mode, scroll_offsets, scroll_cursors)
    else (scroll_mode, scroll_offsets, scroll_cursors)
  | none => (scroll_mode, scroll_offsets, scroll_cursors)

/-! ### Batch Splitter (spec §4.2, src/format.rs
`extract_batch_statement_at_cursor`).  The SQL pretty-printer
`sqlformat::format` is an external crate (out of scope per spec §1) and
is abstracted as an opaque `fmt : String → String` parameter. -/

def isWsChar (c : Char) : Bool := c = ' ' || c = '\t' || c = '\n' || c = '\r'

/-- Rust `str::trim` (ASCII whitespace fragment). -/
def trimChars (s : String) : String :=
  ⟨((s.data.dropWhile isWsChar).reverse.dropWhile isWsChar).reverse⟩

def splitNl : List Char → List Char → List String
  | [], cur => [⟨cur.reverse⟩]
  | c :: rest, cur =>
    if c = '\n' then ⟨cur.reverse⟩ :: splitNl rest []
    else splitNl rest (c :: cur)

def stripTrailingCR (l : String) : String :=
  if l.data.getLast? = some '\r' then ⟨l.data.dropLast⟩ else l

/-- Rust `str::lines`: split on newline, dropping the trailing empty
segment produced by a terminating newline and one trailing carriage
return per line. -/
def rustLines (s : String) : List String :=
  let parts := splitNl s.data []
  (if parts.getLast? = some "" then parts.dropLast else parts).map
    stripTrailingCR

/-- Line accumulation step of the batch loop: Rust pushes a newline
separator only when the accumulator is non-empty. -/
def joinStep (cur line : String) : String :=
  if cur = "" then line else cur ++ "\n" ++ line

def rustJoin (ls : List String) : String := ls.foldl joinStep ""

/-- Rendered content-line count of one batch segment: the
pretty-printed line count, or the raw line count (at least one) when
pretty-printing yields blank output. -/
def renderedCount (fmt : String → String) (raw : String) : Nat :=
  let formatted := fmt (trimChars raw)
  if trimChars formatted = "" then max (rustLines raw).length 1
  else (rustLines formatted).length

/-- The batch-splitting loop of `extract_batch_statement_at_cursor`
(src/format.rs lines 74-118): walk the lines; at every delimiter line
push `(line_count, segment)` when the accumulated segment is non-blank
and advance `line_count` by header + content + separator; push the final
non-blank segment without advancing. -/
def segsAux (fmt : String → String) :
    List String → String → Nat → List (Nat × String) → List (Nat × String)
  | [], cur, cnt, acc =>
    if trimChars cur ≠ "" then acc ++ [(cnt, cur)] else acc
  | line :: rest, cur, cnt, acc =>
    if strStartsWith line "[-- Batch Command" then
      if trimChars cur ≠ "" then
        segsAux fmt rest "" (cnt + 1 + renderedCount fmt cur + 1)
          (acc ++ [(cnt, cur)])
      else segsAux fmt rest "" cnt acc
    else segsAux fmt rest (joinStep cur line) cnt acc

def batchSegs (fmt : String → String) (ls : List String) :
    List (Nat × String) :=
  segsAux fmt ls "" 0 []

/-- The `batch_statements` vector (start line, raw segment text) built
by `extract_batch_statement_at_cursor`. -/
def batchSegmentsWithStart (fmt : String → String) (statement : String) :
    List (Nat × String) :=
  batchSegs fmt (rustLines statement)

/-- The scan loop of `extract_batch_statement_at_cursor` (src/format.rs
lines 121-146): find the first segment whose
`[start, start + 1 + content + 1)` range holds the cursor and return its
pretty-printed (or raw, when pretty-printing is blank) text. -/
def findSeg (fmt : String → String) (cursor_pos : Nat) :
    List (Nat × String) → Option String
  | [] => none
  | (start, sql) :: rest =>
    let formatted := fmt (trimChars sql)
    let cnt := if trimChars formatted = "" then max (rustLines sql).length 1
               else (rustLines formatted).length
    if start ≤ cursor_pos ∧ cursor_pos < start + 1 + cnt + 1 then
      some (if trimChars formatted = "" then sql else formatted)
    else findSeg fmt cursor_pos rest

/-- Translated from `extract_batch_statement_at_cursor` in
src/format.rs. -/
def extract_batch_statement_at_cursor (fmt : String → String)
    (statement : String) (cursor_pos : Nat) : String :=
  match findSeg fmt cursor_pos (batchSegmentsWithStart fmt statement) with
  | some res => res
  | none => statement

/-! ### Concrete fixtures used by witnesses and counterexamples -/

/-- A record with no HTTP method but a populated raw `endpoint` field:
the code's filter matches its `endpoint`, while its spec display-label
is the caller-derived "N/A". -/
def msgEndpointNoMethod : SqlLogMessage :=
  { statement := "SELECT 1;", duration := 3,
    timestamp := "2024-01-01T00:00:01Z",
    endpoint := some "zzz-endpoint", http_method := none,
    caller_namespace := none, caller_class := none, caller_method := none,
    uid := some "u1" }

/-- A plain GET record used by several witnesses. -/
def msgGetA : SqlLogMessage :=
  { statement := "SELECT 2;", duration := 5,
    timestamp := "2024-01-01T00:00:02Z",
    endpoint := some "/api/a", http_method := some "GET",
    caller_namespace := none, caller_class := none, caller_method := none,
    uid := some "uidA" }

/-- A second GET record on the same endpoint with a later timestamp. -/
def msgGetB : SqlLogMessage :=
  { statement := "SELECT 3;", duration := 7,
    timestamp := "2024-01-01T00:00:03Z",
    endpoint := some "/api/a", http_method := some "GET",
    caller_namespace := none, caller_class := none, caller_method := none,
    uid := some "uidB" }

/-! ### Theorems -/

/-- Claim C1: for every per-item scroll state with total content-line
count `T > 0` and viewport height `H`, after any single `cursor_down`,
`cursor_up`, `page_down`, or `page_up` operation applied to a state
satisfying the invariant, the resulting state satisfies
`offset ≤ cursor < offset + H` and `0 ≤ offset ≤ max 0 (T - H)`. -/
theorem scroll_ops_preserve_invariant (T H : Nat) (s : ScrollSt)
    (hT : 0 < T) (hinv : ScrollInv T H s) :
    ScrollInv T H (cursorDown T H s) ∧ ScrollInv T H (cursorUp s) ∧
      ScrollInv T H (pageDown T H s) ∧ ScrollInv T H (pageUp H s) := by
  dsimp only [ScrollInv] at hinv
  obtain ⟨h1, h2, h3⟩ := hinv
  refine ⟨?_, ?_, ?_, ?_⟩
  · unfold cursorDown
    split_ifs with hc ho <;> (dsimp only [ScrollInv]; omega)
  · unfold cursorUp
    split_ifs with hc ho <;> (dsimp only [ScrollInv]; omega)
  · unfold pageDown
    split_ifs with ho <;> (dsimp only [ScrollInv]; omega)
  · unfold pageUp
    split_ifs with ho <;> (dsimp only [ScrollInv]; omega)

/-- Concrete witness for C1: the state `(offset, cursor) = (2, 3)` with
`T = 9`, `H = 4` satisfies the invariant, and each of the four
operations preserves it there. -/
theorem scroll_ops_preserve_invariant_witness :
    (0 < 9 ∧ ScrollInv 9 4 ⟨2, 3⟩) ∧
      (ScrollInv 9 4 (cursorDown 9 4 ⟨2, 3⟩) ∧ ScrollInv 9 4 (cursorUp ⟨2, 3⟩) ∧
        ScrollInv 9 4 (pageDown 9 4 ⟨2, 3⟩) ∧ ScrollInv 9 4 (pageUp 4 ⟨2, 3⟩)) :=
  ⟨⟨by omega, by dsimp only [ScrollInv]; omega⟩,
    scroll_ops_preserve_invariant 9 4 ⟨2, 3⟩ (by omega)
      (by dsimp only [ScrollInv]; omega)⟩

/-! #### Ordering helper lemmas -/

theorem strCmp_eq_lt {a b : String} : strCmp a b = .lt ↔ a < b := by
  unfold strCmp
  split_ifs with h1 h2 <;> simp_all

theorem strCmp_eq_gt {a b : String} : strCmp a b = .gt ↔ b < a := by
  unfold strCmp
  split_ifs with h1 h2
  · simp [asymm h1]
  · simp [h2]
  · simp [h2]

theorem strCmp_eq_eq {a b : String} : strCmp a b = .eq ↔ a = b := by
  unfold strCmp
  split_ifs with h1 h2
  · simp [ne_of_lt h1]
  · simp [(ne_of_lt h2).symm]
  · simp [le_antisymm (le_of_not_lt h2) (le_of_not_lt h1)]

theorem cmpOptStr_eq_eq {x y : Option String} : cmpOptStr x y = .eq ↔ x = y := by
  cases x <;> cases y <;> simp [cmpOptStr, strCmp_eq_eq]

theorem cmpOptStr_self (x : Option String) : cmpOptStr x x = .eq :=
  cmpOptStr_eq_eq.mpr rfl

theorem cmpOptStr_lt_trans {x y z : Option String} (h1 : cmpOptStr x y = .lt)
    (h2 : cmpOptStr y z = .lt) : cmpOptStr x z = .lt := by
  cases x <;> cases y <;> cases z <;> simp_all [cmpOptStr, strCmp_eq_lt]
  exact lt_trans h1 h2

theorem cmpOptStr_gt_swap {x y : Option String} (h : cmpOptStr x y = .gt) :
    cmpOptStr y x = .lt := by
  cases x <;> cases y <;> simp_all [cmpOptStr, strCmp_eq_lt, strCmp_eq_gt]

theorem RequestGroup.eq_of_fields : ∀ {x y : RequestGroup},
    x.endpoint = y.endpoint → x.http_method = y.http_method → x = y
  | ⟨_, _⟩, ⟨_, _⟩, rfl, rfl => rfl

/-- The endpoint/http_method tie-break chain characterised as a
lexicographic comparison of string pairs. -/
theorem strCmp_chain_ne_gt_iff (ea eb ma mb : String) :
    (if strCmp ea eb = .eq then strCmp ma mb else strCmp ea eb) ≠ .gt ↔
      (ea < eb ∨ (ea = eb ∧ (ma < mb ∨ ma = mb))) := by
  rcases hec : strCmp ea eb with _ | _ | _
  · simp [strCmp_eq_lt.mp hec]
  · have he := strCmp_eq_eq.mp hec
    rw [if_pos rfl]
    rcases hmc : strCmp ma mb with _ | _ | _
    · simp [he, strCmp_eq_lt.mp hmc]
    · simp [he, strCmp_eq_eq.mp hmc]
    · have hm := strCmp_eq_gt.mp hmc
      simp [he, asymm hm, hm.ne']
  · have hgt := strCmp_eq_gt.mp hec
    simp [asymm hgt, hgt.ne']

/-- Characterisation of the non-strict relation induced by the inner
(timestamp, endpoint, http_method) part of the source comparator. -/
theorem cmpTail_ne_gt_iff (a b : RequestGroup × List SqlLogMessage) :
    cmpTail a b ≠ .gt ↔
      (cmpOptStr (maxTimestamp b.2) (maxTimestamp a.2) = .lt ∨
        (maxTimestamp a.2 = maxTimestamp b.2 ∧
          (a.1.endpoint < b.1.endpoint ∨
            (a.1.endpoint = b.1.endpoint ∧
              (a.1.http_method < b.1.http_method ∨
                a.1.http_method = b.1.http_method))))) := by
  unfold cmpTail
  rcases hts : cmpOptStr (maxTimestamp b.2) (maxTimestamp a.2) with _ | _ | _
  · simp
  · have heqq : maxTimestamp b.2 = maxTimestamp a.2 := cmpOptStr_eq_eq.mp hts
    rw [if_pos rfl, strCmp_chain_ne_gt_iff]
    simp [heqq]
  · rw [if_neg (by simp)]
    constructor
    · intro h
      exact absurd rfl h
    · rintro (h | ⟨heq, _⟩)
      · exact Ordering.noConfusion h
      · rw [← heq, cmpOptStr_self] at hts
        exact Ordering.noConfusion hts

/-- Characterisation of the non-strict relation induced by the full
source comparator: `a` may stand no later than `b` iff `a` is strictly
first on the (pin, timestamp, endpoint, http_method) lexicographic key
or the two keys are equal. -/
theorem cmpGroups_ne_gt_iff (pins : List RequestGroup)
    (a b : RequestGroup × List SqlLogMessage) :
    cmpGroups pins a b ≠ .gt ↔
      ((a.1 ∈ pins ∧ b.1 ∉ pins) ∨
        ((a.1 ∈ pins ↔ b.1 ∈ pins) ∧
          (cmpOptStr (maxTimestamp b.2) (maxTimestamp a.2) = .lt ∨
            (maxTimestamp a.2 = maxTimestamp b.2 ∧
              (a.1.endpoint < b.1.endpoint ∨
                (a.1.endpoint = b.1.endpoint ∧
                  (a.1.http_method < b.1.http_method ∨
                    a.1.http_method = b.1.http_method))))))) := by
  by_cases hpa : a.1 ∈ pins <;> by_cases hpb : b.1 ∈ pins
  · have hred : cmpGroups pins a b = cmpTail a b := by
      unfold cmpGroups; simp [hpa, hpb]
    rw [hred, cmpTail_ne_gt_iff]
    simp [hpa, hpb]
  · have hred : cmpGroups pins a b = .lt := by
      unfold cmpGroups; simp [hpa, hpb]
    rw [hred]
    simp [hpa, hpb]
  · have hred : cmpGroups pins a b = .gt := by
      unfold cmpGroups; simp [hpa, hpb]
    rw [hred]
    simp [hpa, hpb]
  · have hred : cmpGroups pins a b = cmpTail a b := by
      unfold cmpGroups; simp [hpa, hpb]
    rw [hred, cmpTail_ne_gt_iff]
    simp [hpa, hpb]

/-- The comparator's non-strict relation is total. -/
theorem cmpGroups_le_total (pins : List RequestGroup)
    (a b : RequestGroup × List SqlLogMessage) :
    cmpGroups pins a b ≠ .gt ∨ cmpGroups pins b a ≠ .gt := by
  rw [cmpGroups_ne_gt_iff, cmpGroups_ne_gt_iff]
  by_cases hpa : a.1 ∈ pins <;> by_cases hpb : b.1 ∈ pins
  · rcases hts : cmpOptStr (maxTimestamp b.2) (maxTimestamp a.2) with _ | _ | _
    · exact Or.inl (Or.inr ⟨by simp [hpa, hpb], Or.inl rfl⟩)
    · have heqq : maxTimestamp b.2 = maxTimestamp a.2 := cmpOptStr_eq_eq.mp hts
      rcases lt_trichotomy a.1.endpoint b.1.endpoint with he | he | he
      · exact Or.inl (Or.inr ⟨by simp [hpa, hpb], Or.inr ⟨heqq.symm, Or.inl he⟩⟩)
      · rcases lt_trichotomy a.1.http_method b.1.http_method with hm | hm | hm
        · exact Or.inl (Or.inr ⟨by simp [hpa, hpb],
            Or.inr ⟨heqq.symm, Or.inr ⟨he, Or.inl hm⟩⟩⟩)
        · exact Or.inl (Or.inr ⟨by simp [hpa, hpb],
            Or.inr ⟨heqq.symm, Or.inr ⟨he, Or.inr hm⟩⟩⟩)
        · exact Or.inr (Or.inr ⟨by simp [hpa, hpb],
            Or.inr ⟨heqq, Or.inr ⟨he.symm, Or.inl hm⟩⟩⟩)
      · exact Or.inr (Or.inr ⟨by simp [hpa, hpb], Or.inr ⟨heqq, Or.inl he⟩⟩)
    · exact Or.inr (Or.inr ⟨by simp [hpa, hpb], Or.inl (cmpOptStr_gt_swap hts)⟩)
  · exact Or.inl (Or.inl ⟨hpa, hpb⟩)
  · exact Or.inr (Or.inl ⟨hpb, hpa⟩)
  · rcases hts : cmpOptStr (maxTimestamp b.2) (maxTimestamp a.2) with _ | _ | _
    · exact Or.inl (Or.inr ⟨by simp [hpa, hpb], Or.inl rfl⟩)
    · have heqq : maxTimestamp b.2 = maxTimestamp a.2 := cmpOptStr_eq_eq.mp hts
      rcases lt_trichotomy a.1.endpoint b.1.endpoint with he | he | he
      · exact Or.inl (Or.inr ⟨by simp [hpa, hpb], Or.inr ⟨heqq.symm, Or.inl he⟩⟩)
      · rcases lt_trichotomy a.1.http_method b.1.http_method with hm | hm | hm
        · exact Or.inl (Or.inr ⟨by simp [hpa, hpb],
            Or.inr ⟨heqq.symm, Or.inr ⟨he, Or.inl hm⟩⟩⟩)
        · exact Or.inl (Or.inr ⟨by simp [hpa, hpb],
            Or.inr ⟨heqq.symm, Or.inr ⟨he, Or.inr hm⟩⟩⟩)
        · exact Or.inr (Or.inr ⟨by simp [hpa, hpb],
            Or.inr ⟨heqq, Or.inr ⟨he.symm, Or.inl hm⟩⟩⟩)
      · exact Or.inr (Or.inr ⟨by simp [hpa, hpb], Or.inr ⟨heqq, Or.inl he⟩⟩)
    · exact Or.inr (Or.inr ⟨by simp [hpa, hpb], Or.inl (cmpOptStr_gt_swap hts)⟩)

/-- The comparator's non-strict relation is transitive. -/
theorem cmpGroups_le_trans (pins : List RequestGroup)
    (a b c : RequestGroup × List SqlLogMessage)
    (h1 : cmpGroups pins a b ≠ .gt) (h2 : cmpGroups pins b c ≠ .gt) :
    cmpGroups pins a c ≠ .gt := by
  rw [cmpGroups_ne_gt_iff] at h1 h2 ⊢
  rcases h1 with ⟨ha, hnb⟩ | ⟨hiff1, hr1⟩
  · rcases h2 with ⟨hb, _⟩ | ⟨hiff2, _⟩
    · exact absurd hb hnb
    · exact Or.inl ⟨ha, fun hc => hnb (hiff2.mpr hc)⟩
  · rcases h2 with ⟨hb, hnc⟩ | ⟨hiff2, hr2⟩
    · exact Or.inl ⟨hiff1.mpr hb, hnc⟩
    · refine Or.inr ⟨hiff1.trans hiff2, ?_⟩
      rcases hr1 with hlt1 | ⟨heq1, hch1⟩
      · rcases hr2 with hlt2 | ⟨heq2, _⟩
        · exact Or.inl (cmpOptStr_lt_trans hlt2 hlt1)
        · exact Or.inl (by rw [← heq2]; exact hlt1)
      · rcases hr2 with hlt2 | ⟨heq2, hch2⟩
        · exact Or.inl (by rw [heq1]; exact hlt2)
        · refine Or.inr ⟨heq1.trans heq2, ?_⟩
          rcases hch1 with he1 | ⟨he1, hm1⟩
          · rcases hch2 with he2 | ⟨he2, _⟩
            · exact Or.inl (lt_trans he1 he2)
            · exact Or.inl (by rw [← he2]; exact he1)
          · rcases hch2 with he2 | ⟨he2, hm2⟩
            · exact Or.inl (by rw [he1]; exact he2)
            · refine Or.inr ⟨he1.trans he2, ?_⟩
              rcases hm1 with hm1 | hm1
              · rcases hm2 with hm2 | hm2
                · exact Or.inl (lt_trans hm1 hm2)
                · exact Or.inl (by rw [← hm2]; exact hm1)
              · rcases hm2 with hm2 | hm2
                · exact Or.inl (by rw [hm1]; exact hm2)
                · exact Or.inr (hm1.trans hm2)

theorem maxTimestamp_foldl_some (msgs : List SqlLogMessage) (t : String) :
    ∃ u, msgs.foldl maxStep (some t) = some u := by
  induction msgs generalizing t with
  | nil => exact ⟨t, rfl⟩
  | cons m ms ih =>
    rw [List.foldl_cons]
    exact ih _

theorem maxTimestamp_some (msgs : List SqlLogMessage) (h : msgs ≠ []) :
    ∃ t, maxTimestamp msgs = some t := by
  cases msgs with
  | nil => exact absurd rfl h
  | cons m ms =>
    unfold maxTimestamp
    rw [List.foldl_cons]
    exact maxTimestamp_foldl_some ms m.timestamp

/-! #### Bucket well-formedness -/

theorem addToBucket_map_fst (acc : List (RequestGroup × List SqlLogMessage))
    (g : RequestGroup) (m : SqlLogMessage) :
    (addToBucket acc g m).map Prod.fst =
      if g ∈ acc.map Prod.fst then acc.map Prod.fst
      else acc.map Prod.fst ++ [g] := by
  induction acc with
  | nil => simp [addToBucket]
  | cons p rest ih =>
    obtain ⟨g', ms⟩ := p
    by_cases h : g' = g
    · subst h
      simp [addToBucket]
    · simp only [addToBucket, if_neg h, List.map_cons, ih, List.mem_cons]
      by_cases hg : g ∈ rest.map Prod.fst
      · simp [hg, Ne.symm h]
      · simp [hg, Ne.symm h]

theorem addToBucket_keys_nodup (acc : List (RequestGroup × List SqlLogMessage))
    (g : RequestGroup) (m : SqlLogMessage)
    (h : (acc.map Prod.fst).Nodup) :
    ((addToBucket acc g m).map Prod.fst).Nodup := by
  rw [addToBucket_map_fst]
  by_cases hIn : g ∈ acc.map Prod.fst
  · simpa [hIn] using h
  · rw [if_neg hIn, List.nodup_append]
    refine ⟨h, List.nodup_singleton g, ?_⟩
    intro y hy hy2
    simp only [List.mem_singleton] at hy2
    subst hy2
    exact hIn hy

theorem addToBucket_members (acc : List (RequestGroup × List SqlLogMessage))
    (g : RequestGroup) (m : SqlLogMessage)
    (hg : RequestGroup.from_message m = g)
    (h : ∀ p ∈ acc, p.2 ≠ [] ∧ ∀ x ∈ p.2, RequestGroup.from_message x = p.1) :
    ∀ p ∈ addToBucket acc g m,
      p.2 ≠ [] ∧ ∀ x ∈ p.2, RequestGroup.from_message x = p.1 := by
  induction acc with
  | nil =>
    intro p hp
    simp only [addToBucket, List.mem_singleton] at hp
    subst hp
    refine ⟨by simp, ?_⟩
    intro x hx
    simp only [List.mem_singleton] at hx
    subst hx
    exact hg
  | cons q rest ih =>
    obtain ⟨g', ms⟩ := q
    intro p hp
    by_cases hq : g' = g
    · subst hq
      simp only [addToBucket, if_pos] at hp
      rcases List.mem_cons.mp hp with rfl | hp
      · refine ⟨by simp, ?_⟩
        intro x hx
        rcases List.mem_append.mp hx with hx | hx
        · exact (h (g', ms) (by simp)).2 x hx
        · simp only [List.mem_singleton] at hx
          subst hx
          exact hg
      · exact h p (List.mem_cons_of_mem _ hp)
    · simp only [addToBucket, if_neg hq] at hp
      rcases List.mem_cons.mp hp with rfl | hp
      · exact h (g', ms) (by simp)
      · exact ih (fun q hq2 => h q (List.mem_cons_of_mem _ hq2)) p hp

theorem addToBucket_wf (acc : List (RequestGroup × List SqlLogMessage))
    (g : RequestGroup) (m : SqlLogMessage)
    (hg : RequestGroup.from_message m = g) (h : BucketsWF acc) :
    BucketsWF (addToBucket acc g m) :=
  ⟨addToBucket_keys_nodup acc g m h.1, addToBucket_members acc g m hg h.2⟩

theorem bucketize_wf (msgs : List SqlLogMessage) :
    ∀ acc, BucketsWF acc → BucketsWF (bucketize msgs acc) := by
  induction msgs with
  | nil => intro acc h; exact h
  | cons m ms ih =>
    intro acc h
    exact ih _ (addToBucket_wf acc (RequestGroup.from_message m) m rfl h)

theorem addToBucket_mem_self (acc : List (RequestGroup × List SqlLogMessage))
    (g : RequestGroup) (m : SqlLogMessage) :
    ∃ bs, (g, bs) ∈ addToBucket acc g m ∧ m ∈ bs := by
  induction acc with
  | nil => exact ⟨[m], by simp [addToBucket], by simp⟩
  | cons p rest ih =>
    obtain ⟨g', ms⟩ := p
    by_cases h : g' = g
    · subst h
      exact ⟨ms ++ [m], by simp [addToBucket], by simp⟩
    · obtain ⟨bs, hmem, hx⟩ := ih
      exact ⟨bs, by simp [addToBucket, h]; exact Or.inr hmem, hx⟩

theorem addToBucket_mem_preserve
    (acc : List (RequestGroup × List SqlLogMessage)) (g : RequestGroup)
    (m : SqlLogMessage) (k : RequestGroup) (x : SqlLogMessage)
    (bs : List SqlLogMessage) (hmem : (k, bs) ∈ acc) (hx : x ∈ bs) :
    ∃ bs', (k, bs') ∈ addToBucket acc g m ∧ x ∈ bs' := by
  induction acc with
  | nil => simp at hmem
  | cons p rest ih =>
    obtain ⟨g', ms⟩ := p
    rcases List.mem_cons.mp hmem with heq | htl
    · injection heq with h1 h2
      subst h1
      subst h2
      by_cases h : k = g
      · subst h
        exact ⟨bs ++ [m], by simp [addToBucket], List.mem_append_left _ hx⟩
      · exact ⟨bs, by simp [addToBucket, h], hx⟩
    · by_cases h : g' = g
      · subst h
        exact ⟨bs, by simp [addToBucket]; exact Or.inr htl, hx⟩
      · obtain ⟨bs', hmem', hx'⟩ := ih htl
        exact ⟨bs', by simp [addToBucket, h]; exact Or.inr hmem', hx'⟩

theorem bucketize_mem_preserve (msgs : List SqlLogMessage) :
    ∀ (acc : List (RequestGroup × List SqlLogMessage)) (k : RequestGroup)
      (x : SqlLogMessage) (bs : List SqlLogMessage),
      (k, bs) ∈ acc → x ∈ bs →
      ∃ bs', (k, bs') ∈ bucketize msgs acc ∧ x ∈ bs' := by
  induction msgs with
  | nil => intro acc k x bs h hx; exact ⟨bs, h, hx⟩
  | cons m ms ih =>
    intro acc k x bs h hx
    obtain ⟨bs', h', hx'⟩ :=
      addToBucket_mem_preserve acc (RequestGroup.from_message m) m k x bs h hx
    exact ih _ k x bs' h' hx'

theorem bucketize_mem (msgs : List SqlLogMessage) :
    ∀ (acc : List (RequestGroup × List SqlLogMessage)) (x : SqlLogMessage),
      x ∈ msgs →
      ∃ bs, (RequestGroup.from_message x, bs) ∈ bucketize msgs acc ∧ x ∈ bs := by
  induction msgs with
  | nil => intro acc x h; simp at h
  | cons m ms ih =>
    intro acc x h
    rcases List.mem_cons.mp h with rfl | htl
    · obtain ⟨bs, hmem, hx⟩ :=
        addToBucket_mem_self acc (RequestGroup.from_message x) x
      exact bucketize_mem_preserve ms _ _ x bs hmem hx
    · exact ih _ x htl

theorem from_messages_wf (messages : List SqlLogMessage)
    (pins : List RequestGroup) :
    BucketsWF (GroupedLogMessages.from_messages messages pins).groups := by
  have hbase : BucketsWF (bucketize messages []) :=
    bucketize_wf messages [] ⟨List.nodup_nil, by simp⟩
  have hperm : List.Perm (GroupedLogMessages.from_messages messages pins).groups
      (bucketize messages []) := List.perm_insertionSort _ _
  exact ⟨((hperm.map Prod.fst).nodup_iff).mpr hbase.1,
    fun p hp => hbase.2 p (hperm.mem_iff.mp hp)⟩

theorem from_messages_mem (messages : List SqlLogMessage)
    (pins : List RequestGroup) (x : SqlLogMessage) (hx : x ∈ messages) :
    ∃ bs, (RequestGroup.from_message x, bs) ∈
        (GroupedLogMessages.from_messages messages pins).groups ∧ x ∈ bs := by
  obtain ⟨bs, hmem, hxbs⟩ := bucketize_mem messages [] x hx
  exact ⟨bs, (List.mem_insertionSort _).mpr hmem, hxbs⟩

/-- Claim C2: for every record set and pin set, the grouping operation
returns the group buckets ordered so that every pinned group precedes
every unpinned group; within equal pin status, groups are ordered by
their maximum member timestamp descending; and ties are broken by
display-label ascending, then method-label ascending. -/
theorem grouping_buckets_ordered (messages : List SqlLogMessage)
    (pinned_groups : List RequestGroup) :
    (GroupedLogMessages.from_messages messages pinned_groups).groups.Pairwise
      (specGroupBefore pinned_groups) := by
  have hwf := from_messages_wf messages pinned_groups
  have hsorted :
      (GroupedLogMessages.from_messages messages pinned_groups).groups.Pairwise
        (fun a b => cmpGroups pinned_groups a b ≠ .gt) := by
    haveI htot : IsTotal (RequestGroup × List SqlLogMessage)
        (fun a b => cmpGroups pinned_groups a b ≠ .gt) :=
      ⟨fun a b => cmpGroups_le_total pinned_groups a b⟩
    haveI htr : IsTrans (RequestGroup × List SqlLogMessage)
        (fun a b => cmpGroups pinned_groups a b ≠ .gt) :=
      ⟨fun a b c => cmpGroups_le_trans pinned_groups a b c⟩
    exact List.sorted_insertionSort _ _
  have hne : (GroupedLogMessages.from_messages messages
      pinned_groups).groups.Pairwise (fun a b => a.1 ≠ b.1) :=
    List.pairwise_map.mp hwf.1
  refine (hsorted.and hne).imp_of_mem ?_
  intro a b ha hb hab
  obtain ⟨hle, hkne⟩ := hab
  obtain ⟨hane, _⟩ := hwf.2 a ha
  obtain ⟨hbne, _⟩ := hwf.2 b hb
  obtain ⟨ta, hta⟩ := maxTimestamp_some a.2 hane
  obtain ⟨tb, htb⟩ := maxTimestamp_some b.2 hbne
  rw [cmpGroups_ne_gt_iff] at hle
  unfold specGroupBefore
  rcases hle with hpin | ⟨hiff, hrest⟩
  · exact Or.inl hpin
  refine Or.inr ⟨hiff, ?_⟩
  rcases hrest with hlt | ⟨heq, hchain⟩
  · refine Or.inl ⟨ta, tb, hta, htb, ?_⟩
    rw [hta, htb] at hlt
    exact strCmp_eq_lt.mp (by simpa [cmpOptStr] using hlt)
  · refine Or.inr ⟨heq, ?_⟩
    rcases hchain with h | ⟨he, hm⟩
    · exact Or.inl h
    rcases hm with h | h
    · exact Or.inr ⟨he, h⟩
    · exact absurd (RequestGroup.eq_of_fields he h) hkne

/-! #### Flattening lemmas -/

theorem length_eq_headers_add_members (l : List FlatNavigationItem) :
    l.length = l.countP isHeader + l.countP isMember := by
  induction l with
  | nil => simp
  | cons a t ih =>
    cases a <;> simp [List.countP_cons, isHeader, isMember, ih] <;> omega

theorem mem_filtered_iff (f : String) (msgs : List SqlLogMessage)
    (m : SqlLogMessage) :
    (m ∈ (if f = "" then msgs else msgs.filter (matchesFilter f))) ↔
      (m ∈ msgs ∧ (f = "" ∨ matchesFilter f m = true)) := by
  by_cases hf : f = "" <;> simp [hf, List.mem_filter]

theorem wellNested_cons_header (og : Option RequestGroup) (g : RequestGroup)
    (rest : List FlatNavigationItem) :
    wellNested og (FlatNavigationItem.GroupHeader g :: rest) =
      wellNested (some g) rest := by
  cases og <;> rfl

theorem wellNested_map_members (g : RequestGroup) (ms : List SqlLogMessage)
    (tail : List FlatNavigationItem)
    (hall : ∀ m ∈ ms, RequestGroup.from_message m = g)
    (ht : wellNested (some g) tail) :
    wellNested (some g) (ms.map FlatNavigationItem.Message ++ tail) := by
  induction ms with
  | nil => simpa using ht
  | cons m rest ih =>
    simp only [List.map_cons, List.cons_append]
    exact ⟨hall m (by simp),
      ih fun x hx => hall x (List.mem_cons_of_mem _ hx)⟩

theorem flattenGroups_wellNested
    (groups : List (RequestGroup × List SqlLogMessage)) :
    ∀ (E : List RequestGroup) (f : String),
      (∀ p ∈ groups, ∀ x ∈ p.2, RequestGroup.from_message x = p.1) →
      ∀ og, wellNested og (flattenGroups groups E f) := by
  induction groups with
  | nil =>
    intro E f _ og
    simp [flattenGroups, wellNested]
  | cons p rest ih =>
    obtain ⟨g, msgs⟩ := p
    intro E f h og
    simp only [flattenGroups]
    by_cases hemp : (if f = "" then msgs else msgs.filter (matchesFilter f)) = []
    · rw [if_pos hemp]
      exact ih E f (fun q hq => h q (List.mem_cons_of_mem _ hq)) og
    · rw [if_neg hemp, wellNested_cons_header]
      by_cases hexp : g ∈ E
      · rw [if_pos hexp]
        refine wellNested_map_members g _ _ ?_
          (ih E f (fun q hq => h q (List.mem_cons_of_mem _ hq)) (some g))
        intro m hm
        have hm2 : m ∈ (if f = "" then msgs else msgs.filter (matchesFilter f)) :=
          (List.mem_insertionSort _).mp hm
        have hm3 : m ∈ msgs := ((mem_filtered_iff f msgs m).mp hm2).1
        exact h (g, msgs) (by simp) m hm3
      · rw [if_neg hexp, List.nil_append]
        exact ih E f (fun q hq => h q (List.mem_cons_of_mem _ hq)) (some g)

/-- Membership of a Member row in the flattened structure, characterised
by group membership, expansion and the filter predicate. -/
theorem message_mem_flattenGroups
    (groups : List (RequestGroup × List SqlLogMessage)) (E : List RequestGroup)
    (f : String) (m : SqlLogMessage) :
    FlatNavigationItem.Message m ∈ flattenGroups groups E f ↔
      ∃ p ∈ groups, p.1 ∈ E ∧ m ∈ p.2 ∧
        (f = "" ∨ matchesFilter f m = true) := by
  induction groups with
  | nil => simp [flattenGroups]
  | cons p rest ih =>
    obtain ⟨g, msgs⟩ := p
    simp only [flattenGroups]
    by_cases hemp : (if f = "" then msgs else msgs.filter (matchesFilter f)) = []
    · rw [if_pos hemp, ih]
      constructor
      · rintro ⟨q, hq, hrest⟩
        exact ⟨q, List.mem_cons_of_mem _ hq, hrest⟩
      · rintro ⟨q, hq, hqE, hqm, hqf⟩
        rcases List.mem_cons.mp hq with rfl | hq2
        · exfalso
          have hmem : m ∈ (if f = "" then msgs else
              msgs.filter (matchesFilter f)) :=
            (mem_filtered_iff f msgs m).mpr ⟨hqm, hqf⟩
          rw [hemp] at hmem
          simp at hmem
        · exact ⟨q, hq2, hqE, hqm, hqf⟩
    · rw [if_neg hemp]
      constructor
      · intro hmem
        rcases List.mem_cons.mp hmem with hhd | htl
        · exact absurd hhd (by simp)
        rcases List.mem_append.mp htl with hblk | hrec
        · by_cases hexp : g ∈ E
          · rw [if_pos hexp, List.mem_map] at hblk
            obtain ⟨m', hm', heq⟩ := hblk
            injection heq with h
            subst h
            have hm2 : m' ∈ (if f = "" then msgs else
                msgs.filter (matchesFilter f)) :=
              (List.mem_insertionSort _).mp hm'
            have hm3 := (mem_filtered_iff f msgs m').mp hm2
            exact ⟨(g, msgs), by simp, hexp, hm3.1, hm3.2⟩
          · rw [if_neg hexp] at hblk
            simp at hblk
        · obtain ⟨q, hq, h3⟩ := ih.mp hrec
          exact ⟨q, List.mem_cons_of_mem _ hq, h3⟩
      · rintro ⟨q, hq, hqE, hqm, hqf⟩
        rcases List.mem_cons.mp hq with rfl | hq2
        · refine List.mem_cons_of_mem _ (List.mem_append_left _ ?_)
          rw [if_pos hqE, List.mem_map]
          refine ⟨m, ?_, rfl⟩
          exact (List.mem_insertionSort _).mpr
            ((mem_filtered_iff f msgs m).mpr ⟨hqm, hqf⟩)
        · exact List.mem_cons_of_mem _
            (List.mem_append_right _ (ih.mpr ⟨q, hq2, hqE, hqm, hqf⟩))

theorem flattenGroups_single_empty (g : RequestGroup)
    (msgs : List SqlLogMessage) (E : List RequestGroup) (f : String)
    (hf : f ≠ "") (hall : ∀ m ∈ msgs, matchesFilter f m = false) :
    flattenGroups [(g, msgs)] E f = [] := by
  simp only [flattenGroups]
  have hfil : msgs.filter (matchesFilter f) = [] := by
    rw [List.filter_eq_nil_iff]
    intro a ha
    simp [hall a ha]
  rw [if_neg hf, hfil, if_pos rfl]

/-- Claim C3: for every non-empty record set (and every pin set,
expansion set and filter text), the flatten output length equals the
number of GroupHeader rows plus the number of Member rows, and every
Member row's record belongs to the group of the GroupHeader row
immediately preceding it, with no Member row before the first header. -/
theorem flatten_rows_structure (messages : List SqlLogMessage)
    (pins expanded_groups : List RequestGroup) (filter_text : String)
    (hne : messages ≠ []) :
    (create_flat_navigation_structure
        (GroupedLogMessages.from_messages messages pins) expanded_groups
        filter_text).length =
      (create_flat_navigation_structure
        (GroupedLogMessages.from_messages messages pins) expanded_groups
        filter_text).countP isHeader +
      (create_flat_navigation_structure
        (GroupedLogMessages.from_messages messages pins) expanded_groups
        filter_text).countP isMember ∧
    wellNested none (create_flat_navigation_structure
      (GroupedLogMessages.from_messages messages pins) expanded_groups
      filter_text) := by
  constructor
  · exact length_eq_headers_add_members _
  · exact flattenGroups_wellNested _ _ _
      (fun p hp => ((from_messages_wf messages pins).2 p hp).2) none

/-- Concrete witness for C3 at a two-record, one-group input with the
group expanded. -/
theorem flatten_rows_structure_witness :
    ([msgGetA, msgGetB] ≠ ([] : List SqlLogMessage)) ∧
    ((create_flat_navigation_structure
        (GroupedLogMessages.from_messages [msgGetA, msgGetB] [])
        [RequestGroup.mk "/api/a" "GET"] "").length =
      (create_flat_navigation_structure
        (GroupedLogMessages.from_messages [msgGetA, msgGetB] [])
        [RequestGroup.mk "/api/a" "GET"] "").countP isHeader +
      (create_flat_navigation_structure
        (GroupedLogMessages.from_messages [msgGetA, msgGetB] [])
        [RequestGroup.mk "/api/a" "GET"] "").countP isMember ∧
    wellNested none (create_flat_navigation_structure
      (GroupedLogMessages.from_messages [msgGetA, msgGetB] [])
      [RequestGroup.mk "/api/a" "GET"] "")) :=
  ⟨by simp, flatten_rows_structure [msgGetA, msgGetB] []
    [RequestGroup.mk "/api/a" "GET"] "" (by simp)⟩

/-- The code's filter predicate written out field by field. -/
theorem matchesFilter_eq_true_iff (f : String) (m : SqlLogMessage) :
    matchesFilter f m = true ↔
      ((match m.http_method with
        | none => strContains (toLowerStr "CALL") (toLowerStr f)
        | some method => strContains (toLowerStr method) (toLowerStr f)) =
          true ∨
        (∃ e, m.endpoint = some e ∧
          strContains (toLowerStr e) (toLowerStr f) = true) ∨
        (∃ c, m.caller_class = some c ∧
          strContains (toLowerStr c) (toLowerStr f) = true) ∨
        (∃ cm, m.caller_method = some cm ∧
          strContains (toLowerStr cm) (toLowerStr f) = true)) := by
  cases hhm : m.http_method <;> cases he : m.endpoint <;>
    cases hc : m.caller_class <;> cases hcm : m.caller_method <;>
    simp [matchesFilter, hhm, he, hc, hcm, or_assoc]

/-- Counterexample to claim C4 as stated: the record
`msgEndpointNoMethod` has no HTTP method, so its spec display-label is
"N/A" and its method-label is "CALL"; the filter text "zzz" matches none
of the claim's four fields (`specMatchesFilter` is `false`), yet the
code keeps the record — and its group header — because the code filters
on the raw `endpoint` field ("zzz-endpoint"). -/
theorem flatten_filter_counterexample :
    matchesFilter "zzz" msgEndpointNoMethod = true ∧
    specMatchesFilter "zzz" msgEndpointNoMethod = false ∧
    FlatNavigationItem.Message msgEndpointNoMethod ∈
      create_flat_navigation_structure
        (GroupedLogMessages.from_messages [msgEndpointNoMethod] [])
        [RequestGroup.mk "N/A" "CALL"] "zzz" := by
  refine ⟨?_, ?_, ?_⟩ <;> decide

/-- Claim C4 (amended): for every group, expansion set and non-empty
filter text, flatten keeps a member record iff the filter text is a
case-insensitive substring of at least one of: the method-label (the
literal "CALL" when `http_method` is absent), the raw `endpoint` field
(when present — not the derived display-label), the caller class, or
the caller method; a group whose members all fail the filter is omitted
entirely, emitting no GroupHeader row. -/
theorem flatten_filter_amended (g : RequestGroup)
    (msgs : List SqlLogMessage) (E : List RequestGroup) (f : String)
    (m : SqlLogMessage) (hf : f ≠ "") :
    (FlatNavigationItem.Message m ∈ flattenGroups [(g, msgs)] E f ↔
      (m ∈ msgs ∧ g ∈ E ∧
        ((match m.http_method with
          | none => strContains (toLowerStr "CALL") (toLowerStr f)
          | some method => strContains (toLowerStr method) (toLowerStr f)) =
            true ∨
          (∃ e, m.endpoint = some e ∧
            strContains (toLowerStr e) (toLowerStr f) = true) ∨
          (∃ c, m.caller_class = some c ∧
            strContains (toLowerStr c) (toLowerStr f) = true) ∨
          (∃ cm, m.caller_method = some cm ∧
            strContains (toLowerStr cm) (toLowerStr f) = true)))) ∧
    ((∀ m' ∈ msgs, matchesFilter f m' = false) →
      flattenGroups [(g, msgs)] E f = []) := by
  constructor
  · rw [message_mem_flattenGroups]
    constructor
    · rintro ⟨q, hq, hqE, hqm, hqf⟩
      simp only [List.mem_singleton] at hq
      subst hq
      rcases hqf with hf2 | hmatch
      · exact absurd hf2 hf
      · exact ⟨hqm, hqE, (matchesFilter_eq_true_iff f m).mp hmatch⟩
    · rintro ⟨hm, hE, hbig⟩
      exact ⟨(g, msgs), by simp, hE, hm,
        Or.inr ((matchesFilter_eq_true_iff f m).mpr hbig)⟩
  · intro hall
    exact flattenGroups_single_empty g msgs E f hf hall

/-- Concrete witness for the amended C4: filtering the GET record by
"get" keeps it, and a group whose single member fails the filter is
omitted. -/
theorem flatten_filter_amended_witness :
    (("get" : String) ≠ "") ∧
    ((FlatNavigationItem.Message msgGetA ∈
        flattenGroups [(RequestGroup.mk "/api/a" "GET", [msgGetA])]
          [RequestGroup.mk "/api/a" "GET"] "get" ↔
      (msgGetA ∈ [msgGetA] ∧
        RequestGroup.mk "/api/a" "GET" ∈ [RequestGroup.mk "/api/a" "GET"] ∧
        ((match msgGetA.http_method with
          | none => strContains (toLowerStr "CALL") (toLowerStr "get")
          | some method =>
            strContains (toLowerStr method) (toLowerStr "get")) = true ∨
          (∃ e, msgGetA.endpoint = some e ∧
            strContains (toLowerStr e) (toLowerStr "get") = true) ∨
          (∃ c, msgGetA.caller_class = some c ∧
            strContains (toLowerStr c) (toLowerStr "get") = true) ∨
          (∃ cm, msgGetA.caller_method = some cm ∧
            strContains (toLowerStr cm) (toLowerStr "get") = true)))) ∧
    ((∀ m' ∈ [msgGetA], matchesFilter "get" m' = false) →
      flattenGroups [(RequestGroup.mk "/api/a" "GET", [msgGetA])]
        [RequestGroup.mk "/api/a" "GET"] "get" = [])) :=
  ⟨by simp, flatten_filter_amended (RequestGroup.mk "/api/a" "GET") [msgGetA]
    [RequestGroup.mk "/api/a" "GET"] "get" msgGetA (by simp)⟩

/-! #### Selection continuity -/

theorem findUidIndex_spec (uid : String) (flat : List FlatNavigationItem)
    (h : ∃ m, FlatNavigationItem.Message m ∈ flat ∧ m.uid = some uid) :
    ∃ i m', findUidIndex uid flat = some i ∧
      flat.get? i = some (FlatNavigationItem.Message m') ∧
      m'.uid = some uid := by
  induction flat with
  | nil =>
    obtain ⟨m, hm, _⟩ := h
    simp at hm
  | cons item rest ih =>
    cases item with
    | GroupHeader g =>
      obtain ⟨m, hm, hu⟩ := h
      have hm' : FlatNavigationItem.Message m ∈ rest := by
        rcases List.mem_cons.mp hm with h1 | h1
        · exact absurd h1 (by simp)
        · exact h1
      obtain ⟨i, m', hfind, hget, hu'⟩ := ih ⟨m, hm', hu⟩
      exact ⟨i + 1, m', by simp [findUidIndex, hfind], by simpa using hget, hu'⟩
    | Message m0 =>
      by_cases h0 : m0.uid = some uid
      · exact ⟨0, m0, by simp [findUidIndex, h0], by simp, h0⟩
      · obtain ⟨m, hm, hu⟩ := h
        have hm' : FlatNavigationItem.Message m ∈ rest := by
          rcases List.mem_cons.mp hm with h1 | h1
          · injection h1 with h2
            subst h2
            exact absurd hu h0
          · exact h1
        obtain ⟨i, m', hfind, hget, hu'⟩ := ih ⟨m, hm', hu⟩
        exact ⟨i + 1, m',
          by simp [findUidIndex, h0, hfind], by simpa using hget, hu'⟩

/-- Claim C5: if the record with uid `x` survives the append of any
number of new records, then after the Navigation Index is recomputed the
uid search finds a Member row carrying uid `x` and the selection is set
to that row's position (plus one for the padding row), independently of
the previous numeric position. -/
theorem selection_continuity (buffer incoming : List SqlLogMessage)
    (pins expanded_groups : List RequestGroup) (filter_text : String)
    (m : SqlLogMessage) (x : String) (prev : Nat)
    (huid : m.uid = some x)
    (hmem : m ∈ appendAll buffer incoming)
    (hexp : RequestGroup.from_message m ∈ expanded_groups)
    (hfilt : filter_text = "" ∨ matchesFilter filter_text m = true) :
    ∃ i m', findUidIndex x (create_flat_navigation_structure
        (GroupedLogMessages.from_messages (appendAll buffer incoming) pins)
        expanded_groups filter_text) = some i ∧
      (create_flat_navigation_structure
        (GroupedLogMessages.from_messages (appendAll buffer incoming) pins)
        expanded_groups filter_text).get? i =
          some (FlatNavigationItem.Message m') ∧
      m'.uid = some x ∧
      restoreSelection (create_flat_navigation_structure
        (GroupedLogMessages.from_messages (appendAll buffer incoming) pins)
        expanded_groups filter_text) x prev = i + 1 := by
  obtain ⟨bs, hb, hmb⟩ :=
    from_messages_mem (appendAll buffer incoming) pins m hmem
  have hflat : FlatNavigationItem.Message m ∈
      create_flat_navigation_structure
        (GroupedLogMessages.from_messages (appendAll buffer incoming) pins)
        expanded_groups filter_text :=
    (message_mem_flattenGroups _ _ _ _).mpr
      ⟨(RequestGroup.from_message m, bs), hb, hexp, hmb, hfilt⟩
  obtain ⟨i, m', hfind, hget, hu⟩ := findUidIndex_spec x _ ⟨m, hflat, huid⟩
  exact ⟨i, m', hfind, hget, hu, by simp [restoreSelection, hfind]⟩

/-- Concrete witness for C5: `msgGetA` (uid "uidA") stays selected after
`msgGetB` arrives, with its group expanded and no filter. -/
theorem selection_continuity_witness :
    (msgGetA.uid = some "uidA" ∧
      msgGetA ∈ appendAll [msgGetA] [msgGetB]) ∧
    (∃ i m', findUidIndex "uidA" (create_flat_navigation_structure
        (GroupedLogMessages.from_messages (appendAll [msgGetA] [msgGetB]) [])
        [RequestGroup.mk "/api/a" "GET"] "") = some i ∧
      (create_flat_navigation_structure
        (GroupedLogMessages.from_messages (appendAll [msgGetA] [msgGetB]) [])
        [RequestGroup.mk "/api/a" "GET"] "").get? i =
          some (FlatNavigationItem.Message m') ∧
      m'.uid = some "uidA" ∧
      restoreSelection (create_flat_navigation_structure
        (GroupedLogMessages.from_messages (appendAll [msgGetA] [msgGetB]) [])
        [RequestGroup.mk "/api/a" "GET"] "") "uidA" 2 = i + 1) :=
  ⟨⟨by decide, by decide⟩,
    selection_continuity [msgGetA] [msgGetB] [] [RequestGroup.mk "/api/a" "GET"]
      "" msgGetA "uidA" 2 (by decide) (by decide) (by decide) (Or.inl rfl)⟩

/-- Counterexample to claim C6 as stated: with a flat list holding a
single header row (so the stored uid is not found) and previous numeric
position 7, the code leaves the selection at 7, which lies outside the
new valid index range — no clamping is performed. -/
theorem restore_selection_counterexample :
    findUidIndex "u"
        [FlatNavigationItem.GroupHeader (RequestGroup.mk "e" "GET")] = none ∧
    restoreSelection
        [FlatNavigationItem.GroupHeader (RequestGroup.mk "e" "GET")] "u" 7 =
      7 ∧
    [FlatNavigationItem.GroupHeader (RequestGroup.mk "e" "GET")].length + 1 <
      7 := by
  refine ⟨?_, ?_, ?_⟩ <;> decide

/-- Claim C6 (amended): when the previously selected record's uid is no
longer found in the recomputed Navigation Index, the selection is left
unchanged at the previous numeric position (the source performs no
clamping on this path). -/
theorem restore_selection_amended (flat : List FlatNavigationItem)
    (uid : String) (prev : Nat) (h : findUidIndex uid flat = none) :
    restoreSelection flat uid prev = prev := by
  simp [restoreSelection, h]

/-- Concrete witness for the amended C6. -/
theorem restore_selection_amended_witness :
    findUidIndex "u"
        [FlatNavigationItem.GroupHeader (RequestGroup.mk "e" "GET")] = none ∧
    restoreSelection
        [FlatNavigationItem.GroupHeader (RequestGroup.mk "e" "GET")] "u" 7 =
      7 :=
  ⟨by decide, restore_selection_amended
    [FlatNavigationItem.GroupHeader (RequestGroup.mk "e" "GET")] "u" 7
    (by decide)⟩

/-! #### Ingest buffer -/

/-- Claim C9: `append` inserts the new record at the end; a buffer
already holding 1000 records evicts exactly the front record, retaining
1000 with the newest at the tail; starting from any reachable buffer
(length at most 1000) the length never exceeds 1000 after an append. -/
theorem append_log_cap (buffer : List SqlLogMessage) (msg : SqlLogMessage)
    (hlen : buffer.length ≤ 1000) :
    (appendLog buffer msg).getLast? = some msg ∧
    (buffer.length = 1000 →
      appendLog buffer msg = buffer.tail ++ [msg] ∧
      (appendLog buffer msg).length = 1000) ∧
    (appendLog buffer msg).length ≤ 1000 := by
  have htail : appendLog buffer msg =
      if buffer.length = 1000 then buffer.tail ++ [msg] else buffer ++ [msg] := by
    unfold appendLog
    by_cases h : buffer.length = 1000
    · rw [if_pos (by simp [h]), if_pos h]
      cases buffer with
      | nil => simp at h
      | cons b bs => simp
    · rw [if_neg (by simp; omega), if_neg h]
  rw [htail]
  by_cases h1000 : buffer.length = 1000
  · rw [if_pos h1000]
    cases buffer with
    | nil => simp at h1000
    | cons b bs =>
      simp only [List.length_cons] at h1000
      refine ⟨List.getLast?_concat _, fun _ => ⟨rfl, ?_⟩, ?_⟩ <;>
        simp only [List.tail_cons, List.length_append,
          List.length_singleton] <;>
        omega
  · rw [if_neg h1000]
    refine ⟨List.getLast?_concat _, fun h => absurd h h1000, ?_⟩
    simp only [List.length_append, List.length_singleton]
    omega

/-- Concrete witness for C9 at the empty buffer. -/
theorem append_log_cap_witness :
    (([] : List SqlLogMessage).length ≤ 1000) ∧
    ((appendLog [] msgGetA).getLast? = some msgGetA ∧
      (([] : List SqlLogMessage).length = 1000 →
        appendLog [] msgGetA = ([] : List SqlLogMessage).tail ++ [msgGetA] ∧
        (appendLog [] msgGetA).length = 1000) ∧
      (appendLog [] msgGetA).length ≤ 1000) :=
  ⟨by simp, append_log_cap [] msgGetA (by simp)⟩

/-! #### Entering scroll mode -/

/-- Claim C10: whenever the `'l'` key is handled while a Member row
whose record uid is individually expanded is selected at flat index
`sel - 1`, scroll mode is entered and both the per-item scroll offset
and scroll cursor stored for that index are reset to 0, regardless of
any stale state previously recorded. -/
theorem enter_scroll_mode_resets (flat : List FlatNavigationItem)
    (expanded_uids : List String) (sel : Nat) (scroll_mode : Bool)
    (scroll_offsets scroll_cursors : Nat → Option Nat)
    (m : SqlLogMessage) (u : String)
    (hsel : 0 < sel)
    (hget : flat.get? (sel - 1) = some (FlatNavigationItem.Message m))
    (huid : m.uid = some u) (hexp : u ∈ expanded_uids) :
    (handleEnterScrollKey flat expanded_uids (some sel) scroll_mode
        scroll_offsets scroll_cursors).1 = true ∧
    (handleEnterScrollKey flat expanded_uids (some sel) scroll_mode
        scroll_offsets scroll_cursors).2.1 (sel - 1) = some 0 ∧
    (handleEnterScrollKey flat expanded_uids (some sel) scroll_mode
        scroll_offsets scroll_cursors).2.2 (sel - 1) = some 0 := by
  simp only [List.get?_eq_getElem?] at hget
  simp [handleEnterScrollKey, hsel, hget, huid, hexp, insertMap]

/-- Concrete witness for C10: stale offset/cursor 5 and 7 are both reset
to 0 on entering scroll mode. -/
theorem enter_scroll_mode_resets_witness :
    (([FlatNavigationItem.Message msgGetA].get? 0 =
        some (FlatNavigationItem.Message msgGetA)) ∧
      msgGetA.uid = some "uidA") ∧
    ((handleEnterScrollKey [FlatNavigationItem.Message msgGetA] ["uidA"]
        (some 1) false (fun _ => some 5) (fun _ => some 7)).1 = true ∧
      (handleEnterScrollKey [FlatNavigationItem.Message msgGetA] ["uidA"]
        (some 1) false (fun _ => some 5) (fun _ => some 7)).2.1 0 = some 0 ∧
      (handleEnterScrollKey [FlatNavigationItem.Message msgGetA] ["uidA"]
        (some 1) false (fun _ => some 5) (fun _ => some 7)).2.2 0 = some 0) :=
  ⟨⟨by decide, by decide⟩,
    enter_scroll_mode_resets [FlatNavigationItem.Message msgGetA] ["uidA"] 1
      false (fun _ => some 5) (fun _ => some 7) msgGetA "uidA" (by decide)
      (by decide) (by decide) (by decide)⟩

/-! #### Batch splitter lemmas -/

theorem segsAux_cons_marker_blank (fmt : String → String) (d : String)
    (post : List String) (cur : String) (cnt : Nat) (acc : List (Nat × String))
    (hd : strStartsWith d "[-- Batch Command" = true)
    (hc : trimChars cur = "") :
    segsAux fmt (d :: post) cur cnt acc = segsAux fmt post "" cnt acc := by
  simp [segsAux, hd, hc]

theorem segsAux_cons_content (fmt : String → String) (l : String)
    (post : List String) (cur : String) (cnt : Nat) (acc : List (Nat × String))
    (hl : strStartsWith l "[-- Batch Command" = false) :
    segsAux fmt (l :: post) cur cnt acc =
      segsAux fmt post (joinStep cur l) cnt acc := by
  simp [segsAux, hl]

theorem segsAux_delimiter (fmt : String → String) (d : String)
    (post : List String) (cur : String) (cnt : Nat) (acc : List (Nat × String))
    (hd : strStartsWith d "[-- Batch Command" = true)
    (hnb : trimChars cur ≠ "") :
    segsAux fmt (d :: post) cur cnt acc =
      segsAux fmt post "" (cnt + 1 + renderedCount fmt cur + 1)
        (acc ++ [(cnt, cur)]) := by
  simp [segsAux, hd, hnb]

theorem segsAux_no_marker (fmt : String → String) (pre : List String)
    (hpre : ∀ l ∈ pre, strStartsWith l "[-- Batch Command" = false) :
    ∀ (rest : List String) (cur : String) (cnt : Nat)
      (acc : List (Nat × String)),
      segsAux fmt (pre ++ rest) cur cnt acc =
        segsAux fmt rest (pre.foldl joinStep cur) cnt acc := by
  induction pre with
  | nil => intro rest cur cnt acc; rfl
  | cons l ls ih =>
    intro rest cur cnt acc
    rw [List.cons_append,
      segsAux_cons_content fmt l (ls ++ rest) cur cnt acc (hpre l (by simp)),
      ih (fun x hx => hpre x (List.mem_cons_of_mem _ hx)), List.foldl_cons]

theorem segsAux_acc (fmt : String → String) (ls : List String) :
    ∀ (cur : String) (cnt : Nat) (acc : List (Nat × String)),
      segsAux fmt ls cur cnt acc = acc ++ segsAux fmt ls cur cnt [] := by
  induction ls with
  | nil =>
    intro cur cnt acc
    by_cases h : trimChars cur = "" <;> simp [segsAux, h]
  | cons l rest ih =>
    intro cur cnt acc
    by_cases hl : strStartsWith l "[-- Batch Command" = true
    · by_cases hc : trimChars cur = ""
      · rw [segsAux_cons_marker_blank fmt l rest cur cnt acc hl hc,
          segsAux_cons_marker_blank fmt l rest cur cnt [] hl hc]
        exact ih "" cnt acc
      · rw [segsAux_delimiter fmt l rest cur cnt acc hl hc,
          segsAux_delimiter fmt l rest cur cnt [] hl hc,
          ih "" _ (acc ++ [(cnt, cur)]), ih "" _ ([] ++ [(cnt, cur)])]
        simp
    · have hl2 : strStartsWith l "[-- Batch Command" = false := by
        simpa using hl
      rw [segsAux_cons_content fmt l rest cur cnt acc hl2,
        segsAux_cons_content fmt l rest cur cnt [] hl2]
      exact ih _ cnt acc

/-- The raw segment texts do not depend on the running line count. -/
theorem segsAux_snd_cnt (fmt : String → String) (ls : List String) :
    ∀ (cur : String) (cnt cnt' : Nat),
      (segsAux fmt ls cur cnt []).map Prod.snd =
        (segsAux fmt ls cur cnt' []).map Prod.snd := by
  induction ls with
  | nil =>
    intro cur cnt cnt'
    by_cases h : trimChars cur = "" <;> simp [segsAux, h]
  | cons l rest ih =>
    intro cur cnt cnt'
    by_cases hl : strStartsWith l "[-- Batch Command" = true
    · by_cases hc : trimChars cur = ""
      · rw [segsAux_cons_marker_blank fmt l rest cur cnt [] hl hc,
          segsAux_cons_marker_blank fmt l rest cur cnt' [] hl hc]
        exact ih "" cnt cnt'
      · rw [segsAux_delimiter fmt l rest cur cnt [] hl hc,
          segsAux_delimiter fmt l rest cur cnt' [] hl hc,
          segsAux_acc fmt rest "" _ ([] ++ [(cnt, cur)]),
          segsAux_acc fmt rest "" _ ([] ++ [(cnt', cur)])]
        simp only [List.nil_append, List.map_append, List.map_cons,
          List.map_nil]
        rw [ih "" (cnt + 1 + renderedCount fmt cur + 1)
          (cnt' + 1 + renderedCount fmt cur + 1)]
    · have hl2 : strStartsWith l "[-- Batch Command" = false := by
        simpa using hl
      rw [segsAux_cons_content fmt l rest cur cnt [] hl2,
        segsAux_cons_content fmt l rest cur cnt' [] hl2]
      exact ih _ cnt cnt'

/-- Counterexample to claim C8 as stated: non-blank content before the
first delimiter line IS treated as a batch — "PREFIX" contributes a
sub-statement of its own to the splitter's output. -/
theorem batch_prefix_counterexample :
    (batchSegmentsWithStart (fun s => s)
        "PREFIX\n[-- Batch Command 1]\nSELECT 1;").map Prod.snd =
      ["PREFIX", "SELECT 1;"] := by
  rfl

/-- Claim C8 (amended): for every statement string whose lines are a
non-blank, delimiter-free prefix followed by a batch-delimiter line, the
prefix IS treated as a batch: it contributes the first sub-statement,
and splitting continues on the remaining lines; and when the string
contains no delimiter at all (and is non-blank), the whole string is one
statement. -/
theorem batch_prefix_amended (fmt : String → String) (s s2 : String)
    (pre post ls : List String) (d : String)
    (hs : rustLines s = pre ++ d :: post)
    (hd : strStartsWith d "[-- Batch Command" = true)
    (hpre : ∀ l ∈ pre, strStartsWith l "[-- Batch Command" = false)
    (hnb : trimChars (rustJoin pre) ≠ "")
    (hs2 : rustLines s2 = ls)
    (hls : ∀ l ∈ ls, strStartsWith l "[-- Batch Command" = false)
    (hls2 : trimChars (rustJoin ls) ≠ "") :
    (batchSegmentsWithStart fmt s).map Prod.snd =
      rustJoin pre :: (batchSegs fmt post).map Prod.snd ∧
    (batchSegmentsWithStart fmt s2).map Prod.snd = [rustJoin ls] := by
  constructor
  · rw [batchSegmentsWithStart, hs, batchSegs,
      segsAux_no_marker fmt pre hpre (d :: post) "" 0 []]
    rw [show pre.foldl joinStep "" = rustJoin pre from rfl]
    rw [segsAux_delimiter fmt d post (rustJoin pre) 0 [] hd hnb,
      segsAux_acc fmt post "" _ ([] ++ [(0, rustJoin pre)])]
    simp only [List.nil_append, List.map_cons, List.map_append, List.map_nil,
      List.singleton_append, List.cons.injEq, true_and]
    rw [batchSegs]
    exact segsAux_snd_cnt fmt post "" (0 + 1 + renderedCount fmt (rustJoin pre) + 1) 0
  · rw [batchSegmentsWithStart, hs2]
    have h2 := segsAux_no_marker fmt ls hls [] "" 0 []
    rw [List.append_nil] at h2
    rw [batchSegs, h2]
    rw [show ls.foldl joinStep "" = rustJoin ls from rfl]
    simp [segsAux, hls2]

/-- Concrete witness for the amended C8. -/
theorem batch_prefix_amended_witness :
    (strStartsWith "[-- Batch Command 1]" "[-- Batch Command" = true ∧
      trimChars (rustJoin ["PREFIX"]) ≠ "" ∧
      trimChars (rustJoin ["SELECT 9;"]) ≠ "") ∧
    ((batchSegmentsWithStart (fun s => s)
        "PREFIX\n[-- Batch Command 1]\nSELECT 1;").map Prod.snd =
      rustJoin ["PREFIX"] ::
        (batchSegs (fun s => s) ["SELECT 1;"]).map Prod.snd ∧
    (batchSegmentsWithStart (fun s => s) "SELECT 9;").map Prod.snd =
      [rustJoin ["SELECT 9;"]]) :=
  ⟨⟨by decide, by decide, by decide⟩,
    batch_prefix_amended (fun s => s) "PREFIX\n[-- Batch Command 1]\nSELECT 1;"
      "SELECT 9;" ["PREFIX"] ["SELECT 1;"] ["SELECT 9;"]
      "[-- Batch Command 1]" (by decide) (by decide)
      (by intro l hl; simp only [List.mem_singleton] at hl; subst hl; decide)
      (by decide) (by decide)
      (by intro l hl; simp only [List.mem_singleton] at hl; subst hl; decide)
      (by decide)⟩

/-- Claim C7: the example batch statement splits into exactly the two
sub-statements "SELECT 1;" and "SELECT 2;", and `statement_at_offset`
at any offset inside the first sub-statement's computed range
(header + content + separator) returns "SELECT 1;" or its
pretty-printed form, for an arbitrary pretty-printer `fmt`. -/
theorem batch_example_split_and_extract (fmt : String → String) (off : Nat)
    (hoff : off < 1 + renderedCount fmt "SELECT 1;" + 1) :
    (batchSegmentsWithStart fmt
        "[-- Batch Command 1]\nSELECT 1;\n[-- Batch Command 2]\nSELECT 2;").map
        Prod.snd = ["SELECT 1;", "SELECT 2;"] ∧
    (extract_batch_statement_at_cursor fmt
        "[-- Batch Command 1]\nSELECT 1;\n[-- Batch Command 2]\nSELECT 2;"
        off = "SELECT 1;" ∨
      extract_batch_statement_at_cursor fmt
        "[-- Batch Command 1]\nSELECT 1;\n[-- Batch Command 2]\nSELECT 2;"
        off = fmt "SELECT 1;") := by
  have hlines : rustLines
      "[-- Batch Command 1]\nSELECT 1;\n[-- Batch Command 2]\nSELECT 2;" =
      ["[-- Batch Command 1]", "SELECT 1;", "[-- Batch Command 2]",
        "SELECT 2;"] := rfl
  have hsegs : batchSegmentsWithStart fmt
      "[-- Batch Command 1]\nSELECT 1;\n[-- Batch Command 2]\nSELECT 2;" =
      [(0, "SELECT 1;"),
        (0 + 1 + renderedCount fmt "SELECT 1;" + 1, "SELECT 2;")] := by
    rw [batchSegmentsWithStart, hlines, batchSegs,
      segsAux_cons_marker_blank fmt _ _ _ _ _ (by decide) (by decide),
      segsAux_cons_content fmt _ _ _ _ _ (by decide),
      show joinStep "" "SELECT 1;" = "SELECT 1;" from rfl,
      segsAux_delimiter fmt _ _ _ _ _ (by decide) (by decide),
      segsAux_cons_content fmt _ _ _ _ _ (by decide),
      show joinStep "" "SELECT 2;" = "SELECT 2;" from rfl]
    simp [segsAux, show trimChars "SELECT 2;" ≠ "" from by decide]
  refine ⟨by rw [hsegs]; rfl, ?_⟩
  unfold extract_batch_statement_at_cursor
  rw [hsegs]
  simp only [findSeg]
  have hcond : 0 ≤ off ∧ off < 0 + 1 +
      (if trimChars (fmt (trimChars "SELECT 1;")) = ""
        then max (rustLines "SELECT 1;").length 1
        else (rustLines (fmt (trimChars "SELECT 1;"))).length) + 1 := by
    refine ⟨Nat.zero_le _, ?_⟩
    show off < 0 + 1 + renderedCount fmt "SELECT 1;" + 1
    omega
  rw [if_pos hcond]
  by_cases hfmt : trimChars (fmt (trimChars "SELECT 1;")) = ""
  · left
    rw [if_pos hfmt]
  · right
    rw [if_neg hfmt, show trimChars "SELECT 1;" = "SELECT 1;" from rfl]

/-- Concrete witness for C7 with the identity pretty-printer at offset
0 (the batch header line of the first sub-statement). -/
theorem batch_example_split_and_extract_witness :
    (0 < 1 + renderedCount (fun s => s) "SELECT 1;" + 1) ∧
    ((batchSegmentsWithStart (fun s => s)
        "[-- Batch Command 1]\nSELECT 1;\n[-- Batch Command 2]\nSELECT 2;").map
        Prod.snd = ["SELECT 1;", "SELECT 2;"] ∧
      (extract_batch_statement_at_cursor (fun s => s)
          "[-- Batch Command 1]\nSELECT 1;\n[-- Batch Command 2]\nSELECT 2;"
          0 = "SELECT 1;" ∨
        extract_batch_statement_at_cursor (fun s => s)
          "[-- Batch Command 1]\nSELECT 1;\n[-- Batch Command 2]\nSELECT 2;"
          0 = (fun s => s) "SELECT 1;")) :=
  ⟨by decide, batch_example_split_and_extract (fun s => s) 0 (by decide)⟩
